import Mathlib

/-!
Verification development for the asset-list core of homebox-label-maker
(src/asset_list.rs and the expansion loop of src/main.rs).

The embedding models:
- `AssetId(u16, u16)` with its derived lexicographic `Ord`, its `Display`
  rendering `{_0:03}-{_1:03}`, and `AssetId::increment` (u16 arithmetic,
  embedded on `Nat` with an explicit wrap at 2^16);
- `ListEntry` (`Range { from, to }` / `Id`) and `ListEntryIter::next` as an
  explicit state-passing step function, with fuel-bounded iteration;
- `Validate::validate for Vec<ListEntry>`;
- the pest grammar `Input = SOI ~ List ~ EOI`, `List = (Range | AssetId) ~
  ("," ~ (Range | AssetId))*`, `Range = AssetId ~ "--" ~ AssetId`,
  `AssetId = ${ AssetIdComp ~ "-" ~ AssetIdComp }`,
  `AssetIdComp = @{ ASCII_DIGIT{3} }`, `WHITESPACE = _{ " " }` as a
  PEG-style recursive-descent parser on `List Char` (ordered choice with
  backtracking, implicit whitespace skipped between tokens of non-atomic
  rules only).
-/

namespace AssetList

/-- Semantics of `u16::cmp` (total order comparison on the numeric value). -/
def natCmp (x y : Nat) : Ordering :=
  if x < y then .lt else if x = y then .eq else .gt

/-- Embedding of `struct AssetId(u16, u16)`: field `a` is the primary component `_0`,
field `b` the secondary component `_1`, embedded as `Nat`. -/
structure AssetId where
  a : Nat
  b : Nat
deriving DecidableEq

/-- The derived `Ord` of `AssetId`: compare the first field; if equal,
compare the second. -/
def AssetId.cmp (x y : AssetId) : Ordering :=
  match natCmp x.a y.a with
  | .eq => natCmp x.b y.b
  | o => o

/-- Rust `<` on `AssetId` (`cmp == Ordering::Less`). -/
def AssetId.ltb (x y : AssetId) : Bool := x.cmp y == .lt

/-- Rust `<=` on `AssetId` (`cmp != Ordering::Greater`). -/
def AssetId.leb (x y : AssetId) : Bool := x.cmp y != .gt

/-- Rust `>` on `AssetId` (`cmp == Ordering::Greater`). -/
def AssetId.gtb (x y : AssetId) : Bool := x.cmp y == .gt

/-- Embedding of `AssetId::increment`: `self.1 += 1; if self.1 > 999 { self.1 = 0;
self.0 += 1; }`. u16 additions are embedded with their wrap at 2^16. -/
def AssetId.increment (id : AssetId) : AssetId :=
  let b := (id.b + 1) % 65536
  if 999 < b then { a := (id.a + 1) % 65536, b := 0 } else { a := id.a, b := b }

/-- The char for a decimal digit value (ASCII `'0'` is code 48). -/
def digitChar (n : Nat) : Char := Char.ofNat (48 + n)

/-- Decimal digit expansion of a `Nat`, most significant first; the fuel
argument only bounds recursion depth and is always supplied large enough. -/
def natDigitsAux : Nat → Nat → List Char
  | 0, _ => []
  | fuel + 1, n =>
    if n < 10 then [digitChar n]
    else natDigitsAux fuel (n / 10) ++ [digitChar (n % 10)]

/-- Decimal digit string of a `Nat` (no padding). -/
def natDigits (n : Nat) : List Char := natDigitsAux (n + 1) n

/-- Rust's `{:03}` format of an unsigned integer: decimal digits,
left-padded with `'0'` to a minimum width of 3 (wider values keep all
their digits). -/
def pad3 (n : Nat) : List Char :=
  List.replicate (3 - (natDigits n).length) (digitChar 0) ++ natDigits n

/-- The `Display` of `AssetId`: `{_0:03}-{_1:03}`. -/
def AssetId.render (id : AssetId) : String :=
  String.mk (pad3 id.a ++ '-' :: pad3 id.b)

/-- Embedding of `enum ListEntry { Range { from, to }, Id(AssetId) }`; `from` and `to`
are Lean keywords, so the fields are named `fr` and `to_`. -/
inductive ListEntry where
  | Range (fr to_ : AssetId)
  | Id (id : AssetId)
deriving DecidableEq

/-- Embedding of `struct ListEntryIter { at: Option<AssetId>, entry: ListEntry }`;
`at` is a Lean keyword, so the field is named `at_`. -/
structure ListEntryIter where
  at_ : Option AssetId
  entry : ListEntry
deriving DecidableEq

/-- Embedding of `IntoIterator for ListEntry`: start with no cursor. -/
def ListEntry.intoIter (e : ListEntry) : ListEntryIter :=
  { at_ := none, entry := e }

/-- Embedding of `Iterator::next for ListEntryIter`, as a pure step: returns the yielded
item (if any) and the successor iterator state. -/
def ListEntryIter.next (it : ListEntryIter) : Option AssetId × ListEntryIter :=
  match it.entry with
  | .Id id =>
    match it.at_ with
    | none => (some id, { it with at_ := some id })
    | some _ => (none, it)
  | .Range fr to_ =>
    match it.at_ with
    | some cur =>
      let cur2 := cur.increment
      if cur2.gtb to_ then (none, { it with at_ := some cur2 })
      else (some cur2, { it with at_ := some cur2 })
    | none => (some fr, { it with at_ := some fr })

/-- Drive an iterator for at most `fuel` steps, collecting the yielded
items in order, stopping at the first `none`. -/
def runIter : ListEntryIter → Nat → List AssetId
  | _, 0 => []
  | it, fuel + 1 =>
    match it.next with
    | (none, _) => []
    | (some v, it2) => v :: runIter it2 fuel

/-- Rank of an identifier in the enumeration order: `1000 * a + b`. -/
def AssetId.rank (id : AssetId) : Nat := 1000 * id.a + id.b

/-- Inverse of `AssetId.rank` on identifiers whose secondary component is
in range. -/
def AssetId.ofRank (r : Nat) : AssetId := { a := r / 1000, b := r % 1000 }

/-- Enough fuel to fully drain one entry's iterator. -/
def entryFuel : ListEntry → Nat
  | .Id _ => 2
  | .Range _ to_ => max 2 (to_.rank + 2)

/-- The full expansion of one entry: drain a fresh iterator. -/
def ListEntry.expand (e : ListEntry) : List AssetId :=
  runIter e.intoIter (entryFuel e)

/-- The flattened expansion of a parsed list, in list order, as in the
nested `for entry in list { for asset_id in entry { ... } }` loop of
`main`. -/
def expandAll (l : List ListEntry) : List AssetId :=
  l.flatMap ListEntry.expand

/-- The error text of `Validate::validate for Vec<ListEntry>`. -/
def rangeDirectionError : String :=
  "The start of a range must be smaller than the end of a range!"

/-- Embedding of `Validate::validate for Vec<ListEntry>`: scan in order, fail on the
first `Range` with `to < from`. -/
def validate : List ListEntry → Except String Unit
  | [] => .ok ()
  | .Range fr to_ :: rest =>
    if to_.ltb fr then .error rangeDirectionError else validate rest
  | .Id _ :: rest => validate rest

/-- The single whitespace character of the grammar (`WHITESPACE = _{ " " }`). -/
def spaceChar : Char := Char.ofNat 32

/-- Predicate `ASCII_DIGIT` of pest: codes 48 through 57. -/
def isDigitChar (c : Char) : Bool := 48 ≤ c.toNat && c.toNat ≤ 57

/-- Numeric value of an ASCII digit char. -/
def digitVal (c : Char) : Nat := c.toNat - 48

/-- Skip implicit whitespace (between tokens of non-atomic rules). -/
def skipWs : List Char → List Char
  | [] => []
  | c :: rest => if c = spaceChar then skipWs rest else c :: rest

/-- Grammar rule `AssetIdComp = @{ ASCII_DIGIT{3} }` followed by Rust's `str::parse`:
exactly three ASCII digits, decimal value. -/
def parseComp : List Char → Option (Nat × List Char)
  | c1 :: c2 :: c3 :: rest =>
    if isDigitChar c1 && isDigitChar c2 && isDigitChar c3 then
      some (100 * digitVal c1 + 10 * digitVal c2 + digitVal c3, rest)
    else none
  | _ => none

/-- Grammar rule `AssetId = ${ AssetIdComp ~ "-" ~ AssetIdComp }`: compound-atomic, so
no whitespace is skipped inside. -/
def parseAssetId (cs : List Char) : Option (AssetId × List Char) :=
  match parseComp cs with
  | some (a, rest) =>
    match rest with
    | '-' :: rest2 =>
      match parseComp rest2 with
      | some (b, rest3) => some ({ a := a, b := b }, rest3)
      | none => none
    | _ => none
  | none => none

/-- Grammar rule `Range = AssetId ~ "--" ~ AssetId`: non-atomic, whitespace skipped
between the three tokens. -/
def parseRange (cs : List Char) : Option (ListEntry × List Char) :=
  match parseAssetId cs with
  | some (fr, r1) =>
    match skipWs r1 with
    | '-' :: '-' :: r2 =>
      match parseAssetId (skipWs r2) with
      | some (to_, r3) => some (.Range fr to_, r3)
      | none => none
    | _ => none
  | none => none

/-- Grammar choice `(Range | AssetId)`: PEG ordered choice, `Range` first, full
backtracking on failure. -/
def parseItem (cs : List Char) : Option (ListEntry × List Char) :=
  match parseRange cs with
  | some r => some r
  | none =>
    match parseAssetId cs with
    | some (id, rest) => some (.Id id, rest)
    | none => none

/-- Grammar repetition `("," ~ (Range | AssetId))*`: greedy repetition; a failed iteration
consumes nothing (backtracks to before its comma). Each successful
iteration consumes at least one character, so `fuel` at least the length
of the remaining input makes the bound vacuous. -/
def parseListRest : Nat → List ListEntry → List Char → List ListEntry × List Char
  | 0, acc, cs => (acc, cs)
  | fuel + 1, acc, cs =>
    match skipWs cs with
    | ',' :: r1 =>
      match parseItem (skipWs r1) with
      | some (e, r2) => parseListRest fuel (acc ++ [e]) r2
      | none => (acc, cs)
    | _ => (acc, cs)

/-- Grammar rule `Input = SOI ~ List ~ EOI` with `List = item ~ ("," ~ item)*`: parse
one item, then the comma-separated rest, and require that only whitespace
remains. -/
def parseInput (cs0 : List Char) : Option (List ListEntry) :=
  match parseItem (skipWs cs0) with
  | some (e, rest) =>
    match parseListRest rest.length [e] rest with
    | (acc, rest2) => if skipWs rest2 = [] then some acc else none
  | none => none

/-- Embedding of `asset_list::parse`: run the grammar over the characters of the input
string; `none` is a pest `SyntaxError` (no partial result). -/
def parse (s : String) : Option (List ListEntry) := parseInput s.data

/-- The denoted member list of a range: the identifiers of the ranks from
`fr.rank` through `to_.rank`, in rank order. -/
def rangeList (fr to_ : AssetId) : List AssetId :=
  (List.range (to_.rank + 1 - fr.rank)).map (fun i => AssetId.ofRank (fr.rank + i))

/-- Both components within the 3-digit range. -/
def AssetId.validB (x : AssetId) : Bool :=
  decide (x.a ≤ 999) && decide (x.b ≤ 999)

/-- Every identifier occurring in the entry is within the 3-digit range. -/
def ListEntry.validB : ListEntry → Bool
  | .Id id => id.validB
  | .Range fr to_ => fr.validB && to_.validB

lemma natCmp_lt {x y : Nat} : natCmp x y = .lt ↔ x < y := by
  unfold natCmp; split_ifs <;> simp_all <;> omega

lemma natCmp_eq {x y : Nat} : natCmp x y = .eq ↔ x = y := by
  unfold natCmp; split_ifs <;> simp_all <;> omega

lemma natCmp_gt {x y : Nat} : natCmp x y = .gt ↔ y < x := by
  unfold natCmp; split_ifs <;> simp_all <;> omega

lemma AssetId.eq_iff {x y : AssetId} : x = y ↔ x.a = y.a ∧ x.b = y.b := by
  cases x; cases y; simp

lemma AssetId.cmp_lt {x y : AssetId} :
    x.cmp y = .lt ↔ (x.a < y.a ∨ (x.a = y.a ∧ x.b < y.b)) := by
  unfold AssetId.cmp
  cases h : natCmp x.a y.a <;>
    simp_all [natCmp_lt, natCmp_eq, natCmp_gt] <;> omega

lemma AssetId.cmp_eq {x y : AssetId} : x.cmp y = .eq ↔ x = y := by
  unfold AssetId.cmp
  cases h : natCmp x.a y.a <;>
    simp_all [natCmp_lt, natCmp_eq, natCmp_gt, AssetId.eq_iff] <;> omega

lemma AssetId.cmp_gt {x y : AssetId} :
    x.cmp y = .gt ↔ (y.a < x.a ∨ (y.a = x.a ∧ y.b < x.b)) := by
  unfold AssetId.cmp
  cases h : natCmp x.a y.a <;>
    simp_all [natCmp_lt, natCmp_eq, natCmp_gt] <;> omega

lemma AssetId.ltb_iff {x y : AssetId} : x.ltb y = true ↔ x.cmp y = .lt := by
  unfold AssetId.ltb; cases h : x.cmp y <;> simp_all <;> decide

lemma AssetId.gtb_iff {x y : AssetId} : x.gtb y = true ↔ x.cmp y = .gt := by
  unfold AssetId.gtb; cases h : x.cmp y <;> simp_all <;> decide

lemma AssetId.leb_iff {x y : AssetId} : x.leb y = true ↔ ¬ x.cmp y = .gt := by
  unfold AssetId.leb; cases h : x.cmp y <;> simp_all <;> decide

lemma AssetId.ltb_rank {x y : AssetId} (hx : x.b ≤ 999) (hy : y.b ≤ 999) :
    x.ltb y = true ↔ x.rank < y.rank := by
  rw [AssetId.ltb_iff, AssetId.cmp_lt]
  unfold AssetId.rank; omega

lemma AssetId.gtb_rank {x y : AssetId} (hx : x.b ≤ 999) (hy : y.b ≤ 999) :
    x.gtb y = true ↔ y.rank < x.rank := by
  rw [AssetId.gtb_iff, AssetId.cmp_gt]
  unfold AssetId.rank; omega

lemma AssetId.leb_rank {x y : AssetId} (hx : x.b ≤ 999) (hy : y.b ≤ 999) :
    x.leb y = true ↔ x.rank ≤ y.rank := by
  rw [AssetId.leb_iff, AssetId.cmp_gt]
  unfold AssetId.rank; omega

lemma AssetId.rank_ofRank (r : Nat) : (AssetId.ofRank r).rank = r := by
  unfold AssetId.rank AssetId.ofRank; simp; omega

lemma AssetId.ofRank_b (r : Nat) : (AssetId.ofRank r).b ≤ 999 := by
  unfold AssetId.ofRank; simp; omega

lemma AssetId.ofRank_a {r : Nat} (h : r ≤ 999999) : (AssetId.ofRank r).a ≤ 999 := by
  unfold AssetId.ofRank; simp; omega

lemma AssetId.ofRank_rank {x : AssetId} (hx : x.b ≤ 999) :
    AssetId.ofRank x.rank = x := by
  unfold AssetId.ofRank AssetId.rank
  rw [AssetId.eq_iff]; simp; omega

lemma AssetId.increment_ofRank {x : AssetId} (hb : x.b ≤ 999) (ha : x.a ≤ 65534) :
    x.increment = AssetId.ofRank (x.rank + 1) := by
  unfold AssetId.increment AssetId.ofRank AssetId.rank
  simp only []
  split_ifs with h <;> rw [AssetId.eq_iff] <;> simp <;> omega

lemma runIter_step (it : ListEntryIter) (n : Nat) :
    runIter it (n + 1) = match it.next with
      | (none, _) => []
      | (some v, it2) => v :: runIter it2 n := rfl

lemma next_id_none (id : AssetId) :
    ListEntryIter.next { at_ := none, entry := .Id id }
      = (some id, { at_ := some id, entry := .Id id }) := rfl

lemma next_id_some (id x : AssetId) :
    ListEntryIter.next { at_ := some x, entry := .Id id }
      = (none, { at_ := some x, entry := .Id id }) := rfl

lemma next_range_none (fr to_ : AssetId) :
    ListEntryIter.next { at_ := none, entry := .Range fr to_ }
      = (some fr, { at_ := some fr, entry := .Range fr to_ }) := rfl

lemma next_range_some (fr to_ cur : AssetId) :
    ListEntryIter.next { at_ := some cur, entry := .Range fr to_ }
      = (if cur.increment.gtb to_ then none else some cur.increment,
         { at_ := some cur.increment, entry := .Range fr to_ }) := by
  unfold ListEntryIter.next
  by_cases h : cur.increment.gtb to_ = true <;> simp [h]

/-- Draining a `Range` iterator that already has a cursor yields exactly the
identifiers of the ranks strictly between the cursor and the upper bound,
inclusive. -/
lemma runIter_range_cont (fr to_ : AssetId) (hta : to_.a ≤ 999) (htb : to_.b ≤ 999) :
    ∀ fuel (cur : AssetId), cur.b ≤ 999 → cur.rank ≤ to_.rank →
      to_.rank - cur.rank < fuel →
      runIter { at_ := some cur, entry := .Range fr to_ } fuel
        = (List.range (to_.rank - cur.rank)).map
            (fun i => AssetId.ofRank (cur.rank + 1 + i)) := by
  intro fuel
  induction fuel with
  | zero => intro cur _ _ h; omega
  | succ n ih =>
    intro cur hcb hcle hlt
    have hca : cur.a ≤ 999 := by
      have h1 : 1000 * cur.a + cur.b ≤ 1000 * to_.a + to_.b := hcle
      omega
    have hinc : cur.increment = AssetId.ofRank (cur.rank + 1) :=
      AssetId.increment_ofRank hcb (by omega)
    have hincb : cur.increment.b ≤ 999 := by rw [hinc]; exact AssetId.ofRank_b _
    have hrinc : cur.increment.rank = cur.rank + 1 := by
      rw [hinc, AssetId.rank_ofRank]
    rw [runIter_step, next_range_some]
    by_cases hstop : cur.rank = to_.rank
    · have hg : cur.increment.gtb to_ = true := by
        rw [AssetId.gtb_rank hincb htb, hrinc]; omega
      simp [hg, hstop]
    · have hg : cur.increment.gtb to_ = false := by
        have : ¬ cur.increment.gtb to_ = true := by
          rw [AssetId.gtb_rank hincb htb, hrinc]; omega
        exact Bool.not_eq_true _ ▸ eq_false_of_ne_true this
      rw [hg]
      simp only [Bool.false_eq_true, if_false]
      rw [ih cur.increment hincb (by omega) (by omega)]
      have hk : to_.rank - cur.rank = (to_.rank - cur.increment.rank) + 1 := by
        rw [hrinc]; omega
      rw [hk, List.range_succ_eq_map, List.map_cons, List.map_map]
      refine List.cons_eq_cons.mpr ⟨?_, ?_⟩
      · rw [hinc]
      · apply List.map_congr_left
        intro i _
        simp only [Function.comp_apply, hrinc]
        congr 1
        omega

lemma runIter_range (fr to_ : AssetId) (hfb : fr.b ≤ 999)
    (hta : to_.a ≤ 999) (htb : to_.b ≤ 999)
    (hle : fr.rank ≤ to_.rank) :
    ∀ fuel, to_.rank - fr.rank + 1 < fuel →
      runIter (ListEntry.intoIter (.Range fr to_)) fuel = rangeList fr to_ := by
  intro fuel hfuel
  match fuel, hfuel with
  | n + 1, hfuel =>
    rw [ListEntry.intoIter, runIter_step, next_range_none]
    show fr :: runIter { at_ := some fr, entry := ListEntry.Range fr to_ } n
      = rangeList fr to_
    rw [runIter_range_cont fr to_ hta htb n fr hfb hle (by omega)]
    unfold rangeList
    have hk : to_.rank + 1 - fr.rank = (to_.rank - fr.rank) + 1 := by omega
    rw [hk, List.range_succ_eq_map, List.map_cons, List.map_map]
    refine List.cons_eq_cons.mpr ⟨?_, ?_⟩
    · rw [Nat.add_zero, AssetId.ofRank_rank hfb]
    · apply List.map_congr_left
      intro i _
      simp only [Function.comp_apply]
      congr 1
      omega

lemma runIter_id_drained (id x : AssetId) :
    ∀ n, runIter { at_ := some x, entry := .Id id } n = [] := by
  intro n
  cases n with
  | zero => rfl
  | succ m => rw [runIter_step, next_id_some]

lemma runIter_id (id : AssetId) :
    ∀ fuel, 1 ≤ fuel → runIter (ListEntry.intoIter (.Id id)) fuel = [id] := by
  intro fuel h
  match fuel, h with
  | n + 1, _ =>
    rw [ListEntry.intoIter, runIter_step, next_id_none]
    show id :: runIter { at_ := some id, entry := ListEntry.Id id } n = [id]
    rw [runIter_id_drained]

lemma mem_rangeList {fr to_ x : AssetId} (hfb : fr.b ≤ 999)
    (hta : to_.a ≤ 999) (htb : to_.b ≤ 999) (hle : fr.rank ≤ to_.rank) :
    x ∈ rangeList fr to_ ↔
      (x.a ≤ 999 ∧ x.b ≤ 999 ∧ fr.leb x = true ∧ x.leb to_ = true) := by
  unfold rangeList
  simp only [List.mem_map, List.mem_range]
  constructor
  · rintro ⟨i, hi, rfl⟩
    have hb := AssetId.ofRank_b (fr.rank + i)
    have hr := AssetId.rank_ofRank (fr.rank + i)
    have hrto : to_.rank ≤ 999999 := by
      unfold AssetId.rank; omega
    refine ⟨AssetId.ofRank_a (by omega), hb, ?_, ?_⟩
    · rw [AssetId.leb_rank hfb hb, hr]; omega
    · rw [AssetId.leb_rank hb htb, hr]; omega
  · rintro ⟨hxa, hxb, hfx, hxt⟩
    rw [AssetId.leb_rank hfb hxb] at hfx
    rw [AssetId.leb_rank hxb htb] at hxt
    refine ⟨x.rank - fr.rank, by omega, ?_⟩
    have : fr.rank + (x.rank - fr.rank) = x.rank := by omega
    rw [this, AssetId.ofRank_rank hxb]

lemma pairwise_rangeList (fr to_ : AssetId) :
    (rangeList fr to_).Pairwise (fun u v => u.ltb v = true) := by
  unfold rangeList
  refine List.Pairwise.map _ ?_ (List.pairwise_lt_range _)
  intro i j hij
  rw [AssetId.ltb_rank (AssetId.ofRank_b _) (AssetId.ofRank_b _),
    AssetId.rank_ofRank, AssetId.rank_ofRank]
  omega

lemma AssetId.leb_iff_not_ltb (x y : AssetId) :
    x.leb y = true ↔ ¬ (y.ltb x = true) := by
  rw [AssetId.leb_iff, AssetId.ltb_iff, AssetId.cmp_gt, AssetId.cmp_lt]

/-- Claim C1: a Single entry yields exactly the wrapped identifier and then
terminates; a Range entry with `from <= to` yields, in increasing order,
exactly the identifiers between `from` and `to` inclusive, starting at
`from` and advancing by increment, with `from == to` yielding exactly one
value; carry across the 999-to-0 boundary is exercised by the spec's
example input. -/
theorem C1_entry_expansion : ∀ (idv fr to_ : AssetId) (fuel : Nat),
    (1 ≤ fuel → runIter (ListEntry.intoIter (.Id idv)) fuel = [idv]) ∧
    (fr.a ≤ 999 → fr.b ≤ 999 → to_.a ≤ 999 → to_.b ≤ 999 → fr.leb to_ = true →
      to_.rank + 2 - fr.rank ≤ fuel →
      runIter (ListEntry.intoIter (.Range fr to_)) fuel = rangeList fr to_ ∧
      (∀ x : AssetId, x ∈ rangeList fr to_ ↔
        (x.a ≤ 999 ∧ x.b ≤ 999 ∧ fr.leb x = true ∧ x.leb to_ = true)) ∧
      (rangeList fr to_).Pairwise (fun u v => u.ltb v = true) ∧
      (fr = to_ → rangeList fr to_ = [fr])) ∧
    (parse "000-998--000-999,001-000--001-002"
        = some [.Range ⟨0,998⟩ ⟨0,999⟩, .Range ⟨1,0⟩ ⟨1,2⟩] ∧
      expandAll [.Range ⟨0,998⟩ ⟨0,999⟩, .Range ⟨1,0⟩ ⟨1,2⟩]
        = [⟨0,998⟩, ⟨0,999⟩, ⟨1,0⟩, ⟨1,1⟩, ⟨1,2⟩]) := by
  intro idv fr to_ fuel
  refine ⟨runIter_id idv fuel, ?_, by decide, by decide⟩
  intro hfa hfb hta htb hle hfuel
  have hrle : fr.rank ≤ to_.rank := (AssetId.leb_rank hfb htb).mp hle
  refine ⟨runIter_range fr to_ hfb hta htb hrle fuel (by omega),
    fun x => mem_rangeList hfb hta htb hrle, pairwise_rangeList _ _, ?_⟩
  rintro rfl
  unfold rangeList
  rw [show fr.rank + 1 - fr.rank = 1 by omega]
  simp [List.range_succ, AssetId.ofRank_rank hfb]

theorem C1_entry_expansion_witness :
    runIter (ListEntry.intoIter (.Id ⟨7, 3⟩)) 10 = [⟨7, 3⟩] ∧
    runIter (ListEntry.intoIter (.Range ⟨0, 998⟩ ⟨1, 2⟩)) 10
      = rangeList ⟨0, 998⟩ ⟨1, 2⟩ := by
  have h := C1_entry_expansion ⟨7, 3⟩ ⟨0, 998⟩ ⟨1, 2⟩ 10
  exact ⟨h.1 (by decide),
    (h.2.1 (by decide) (by decide) (by decide) (by decide) (by decide)
      (by decide)).1⟩

/-- Claim C2: increment adds one to the secondary component when it is
below 999, leaving the primary unchanged, and carries (secondary to 0,
primary plus one) when the secondary is 999; stated over the identifier
domain, both components in [0, 999]. -/
theorem C2_increment : ∀ a b : Nat, a ≤ 999 → b ≤ 999 →
    (b < 999 → AssetId.increment ⟨a, b⟩ = ⟨a, b + 1⟩) ∧
    (b = 999 → AssetId.increment ⟨a, b⟩ = ⟨a + 1, 0⟩) := by
  intro a b ha hb
  constructor <;>
    { intro h
      unfold AssetId.increment
      simp only []
      split_ifs with hs <;> rw [AssetId.eq_iff] <;> simp <;> omega }

theorem C2_increment_witness :
    AssetId.increment ⟨0, 998⟩ = ⟨0, 999⟩ ∧ AssetId.increment ⟨0, 999⟩ = ⟨1, 0⟩ :=
  ⟨(C2_increment 0 998 (by decide) (by decide)).1 (by decide),
   (C2_increment 0 999 (by decide) (by decide)).2 rfl⟩

/-- Claim C7: comparison of identifiers is lexicographic on the pair
(primary first, then secondary), equal pairs are equal, and the induced
order is total, antisymmetric and transitive. -/
theorem C7_ordering : ∀ x y z : AssetId,
    (x.cmp y = .lt ↔ (x.a < y.a ∨ (x.a = y.a ∧ x.b < y.b))) ∧
    (x.cmp y = .eq ↔ x = y) ∧
    (x.cmp y = .gt ↔ (y.a < x.a ∨ (y.a = x.a ∧ y.b < x.b))) ∧
    (x.leb y = true ∨ y.leb x = true) ∧
    (x.leb y = true → y.leb x = true → x = y) ∧
    (x.leb y = true → y.leb z = true → x.leb z = true) := by
  intro x y z
  refine ⟨AssetId.cmp_lt, AssetId.cmp_eq, AssetId.cmp_gt, ?_, ?_, ?_⟩
  · rw [AssetId.leb_iff, AssetId.leb_iff, AssetId.cmp_gt, AssetId.cmp_gt]
    omega
  · rw [AssetId.leb_iff, AssetId.leb_iff, AssetId.cmp_gt, AssetId.cmp_gt,
      AssetId.eq_iff]
    omega
  · rw [AssetId.leb_iff, AssetId.leb_iff, AssetId.leb_iff, AssetId.cmp_gt,
      AssetId.cmp_gt, AssetId.cmp_gt]
    omega

theorem C7_ordering_witness : AssetId.leb ⟨1, 2⟩ ⟨3, 4⟩ = true :=
  (C7_ordering ⟨1, 2⟩ ⟨1, 2⟩ ⟨3, 4⟩).2.2.2.2.2 (by decide) (by decide)

/-- Claim C9: increment has no overflow guard at the top of the identifier
space: advancing (999, 999) yields (1000, 0) (no error is possible, the
operation is total), and rendering (1000, 0) produces a primary segment of
four digits, "1000-000". -/
theorem C9_overflow :
    AssetId.increment ⟨999, 999⟩ = ⟨1000, 0⟩ ∧
    AssetId.render ⟨1000, 0⟩ = "1000-000" ∧
    (pad3 1000).length = 4 := by
  refine ⟨by decide, by decide, by decide⟩

/-- Claim C10: the first step of a Range expansion yields `from`
unconditionally, without comparing it to `to`; hence a reversed range
(`from > to`) expands to exactly `[from]` and then terminates. -/
theorem C10_reversed_range : ∀ (fr to_ : AssetId) (fuel : Nat),
    (ListEntry.intoIter (.Range fr to_)).next
        = (some fr, { at_ := some fr, entry := .Range fr to_ }) ∧
    (fr.a ≤ 999 → fr.b ≤ 999 → to_.b ≤ 999 → to_.ltb fr = true → 1 ≤ fuel →
      runIter (ListEntry.intoIter (.Range fr to_)) fuel = [fr]) := by
  intro fr to_ fuel
  refine ⟨next_range_none fr to_, ?_⟩
  intro hfa hfb htb hrev hfuel
  match fuel, hfuel with
  | n + 1, _ =>
    rw [ListEntry.intoIter, runIter_step, next_range_none]
    show fr :: runIter { at_ := some fr, entry := ListEntry.Range fr to_ } n = [fr]
    cases n with
    | zero => rfl
    | succ m =>
      rw [runIter_step, next_range_some]
      have hrev2 : to_.rank < fr.rank := (AssetId.ltb_rank htb hfb).mp hrev
      have hinc : fr.increment = AssetId.ofRank (fr.rank + 1) :=
        AssetId.increment_ofRank hfb (by omega)
      have hg : fr.increment.gtb to_ = true := by
        rw [AssetId.gtb_rank (by rw [hinc]; exact AssetId.ofRank_b _) htb,
          hinc, AssetId.rank_ofRank]
        omega
      rw [hg]
      simp

theorem C10_reversed_range_witness :
    runIter (ListEntry.intoIter (.Range ⟨5, 0⟩ ⟨3, 0⟩)) 3 = [⟨5, 0⟩] :=
  (C10_reversed_range ⟨5, 0⟩ ⟨3, 0⟩ 3).2 (by decide) (by decide) (by decide)
    (by decide) (by decide)

lemma validate_cons_id (id : AssetId) (rest : List ListEntry) :
    validate (ListEntry.Id id :: rest) = validate rest := rfl

lemma validate_cons_range (fr to_ : AssetId) (rest : List ListEntry) :
    validate (ListEntry.Range fr to_ :: rest)
      = if to_.ltb fr then .error rangeDirectionError else validate rest := rfl

lemma validate_ok_iff : ∀ l : List ListEntry,
    validate l = .ok () ↔
      ∀ fr to_ : AssetId, ListEntry.Range fr to_ ∈ l → fr.leb to_ = true := by
  intro l
  induction l with
  | nil => simp [validate]
  | cons e rest ih =>
    cases e with
    | Id id =>
      rw [validate_cons_id, ih]
      constructor
      · intro h fr to_ hm
        rcases List.mem_cons.mp hm with hm | hm
        · exact absurd hm (by simp)
        · exact h fr to_ hm
      · intro h fr to_ hm
        exact h fr to_ (List.mem_cons_of_mem _ hm)
    | Range fr to_ =>
      rw [validate_cons_range]
      by_cases hv : to_.ltb fr = true
      · rw [if_pos hv]
        constructor
        · intro h; exact absurd h (by simp)
        · intro h
          have := h fr to_ (List.mem_cons_self _ _)
          rw [AssetId.leb_iff_not_ltb] at this
          exact absurd hv this
      · rw [if_neg (by simpa using hv), ih]
        constructor
        · intro h fr2 to2 hm
          rcases List.mem_cons.mp hm with hm | hm
          · obtain ⟨rfl, rfl⟩ : fr2 = fr ∧ to2 = to_ := by
              injection hm with h1 h2; exact ⟨h1, h2⟩
            rw [AssetId.leb_iff_not_ltb]
            exact hv
          · exact h fr2 to2 hm
        · intro h fr2 to2 hm
          exact h fr2 to2 (List.mem_cons_of_mem _ hm)

lemma validate_first_violation : ∀ (l1 l2 : List ListEntry) (fr to_ : AssetId),
    (∀ fr2 to2 : AssetId, ListEntry.Range fr2 to2 ∈ l1 → fr2.leb to2 = true) →
    to_.ltb fr = true →
    validate (l1 ++ ListEntry.Range fr to_ :: l2) = .error rangeDirectionError := by
  intro l1
  induction l1 with
  | nil =>
    intro l2 fr to_ _ hv
    rw [List.nil_append, validate_cons_range, if_pos hv]
  | cons e rest ih =>
    intro l2 fr to_ hok hv
    cases e with
    | Id id =>
      rw [List.cons_append, validate_cons_id]
      exact ih l2 fr to_ (fun fr2 to2 hm => hok fr2 to2 (List.mem_cons_of_mem _ hm)) hv
    | Range fr2 to2 =>
      rw [List.cons_append, validate_cons_range]
      have h2 : fr2.leb to2 = true := hok fr2 to2 (List.mem_cons_self _ _)
      rw [AssetId.leb_iff_not_ltb] at h2
      rw [if_neg (by simpa using h2)]
      exact ih l2 fr to_ (fun fr3 to3 hm => hok fr3 to3 (List.mem_cons_of_mem _ hm)) hv

/-- Claim C3: validation fails exactly when some Range entry has
`from > to`; it scans in list order and reports the first violating Range
entry with the range-direction error; Single entries never fail; a list
whose Range entries all satisfy `from <= to` validates successfully. The
spec's reversed-range example parses syntactically and is then rejected. -/
theorem C3_validation : ∀ l : List ListEntry,
    (validate l = .ok () ↔
      ∀ fr to_ : AssetId, ListEntry.Range fr to_ ∈ l → fr.leb to_ = true) ∧
    (∀ l1 l2 : List ListEntry, ∀ fr to_ : AssetId,
      l = l1 ++ ListEntry.Range fr to_ :: l2 →
      (∀ fr2 to2 : AssetId, ListEntry.Range fr2 to2 ∈ l1 → fr2.leb to2 = true) →
      to_.ltb fr = true →
      validate l = .error rangeDirectionError) ∧
    (∀ ids : List AssetId, validate (ids.map ListEntry.Id) = .ok ()) ∧
    (parse "005-000--003-000" = some [.Range ⟨5, 0⟩ ⟨3, 0⟩] ∧
      validate [.Range ⟨5, 0⟩ ⟨3, 0⟩] = .error rangeDirectionError) := by
  intro l
  refine ⟨validate_ok_iff l, ?_, ?_, by decide, rfl⟩
  · intro l1 l2 fr to_ hsplit hok hv
    rw [hsplit]
    exact validate_first_violation l1 l2 fr to_ hok hv
  · intro ids
    induction ids with
    | nil => rfl
    | cons id rest ih => rw [List.map_cons, validate_cons_id]; exact ih

theorem C3_validation_witness :
    validate [ListEntry.Id ⟨1, 1⟩, ListEntry.Range ⟨5, 0⟩ ⟨3, 0⟩]
      = .error rangeDirectionError :=
  (C3_validation [ListEntry.Id ⟨1, 1⟩, ListEntry.Range ⟨5, 0⟩ ⟨3, 0⟩]).2.1
    [ListEntry.Id ⟨1, 1⟩] [] ⟨5, 0⟩ ⟨3, 0⟩ rfl (by simp) (by decide)

/-- Claim C5: the grammar rejects, with no partial result, empty input, a
dangling comma, an incomplete range, and components that are not exactly
three ASCII digits, in particular the four inputs named by the spec. -/
theorem C5_malformed_rejected :
    parse "12-000" = none ∧ parse "000-000-" = none ∧ parse "" = none ∧
    parse "000-000,,001-000" = none := by
  refine ⟨by decide, by decide, by decide, by decide⟩

/-- Claim C6: parsing preserves entry order exactly as written, and the
flattened expansion concatenates each entry's expansion in list order; the
spec's mixed example flattens to [(5,0),(1,0),(1,1),(3,0)], not sorted. -/
theorem C6_order_preserved :
    parse "005-000,001-000--001-001,003-000"
        = some [.Id ⟨5, 0⟩, .Range ⟨1, 0⟩ ⟨1, 1⟩, .Id ⟨3, 0⟩] ∧
    expandAll [.Id ⟨5, 0⟩, .Range ⟨1, 0⟩ ⟨1, 1⟩, .Id ⟨3, 0⟩]
        = [⟨5, 0⟩, ⟨1, 0⟩, ⟨1, 1⟩, ⟨3, 0⟩] ∧
    ∀ l : List ListEntry, expandAll l = (l.map ListEntry.expand).flatten := by
  refine ⟨by decide, by decide, ?_⟩
  intro l
  rw [expandAll, List.flatMap_def]

lemma natDigitsAux_lt10 {fuel n : Nat} (hf : 1 ≤ fuel) (h : n < 10) :
    natDigitsAux fuel n = [digitChar n] := by
  match fuel, hf with
  | f + 1, _ => simp [natDigitsAux, h]

lemma natDigitsAux_ge10 {fuel n : Nat} (hf : 1 ≤ fuel) (h : ¬ n < 10) :
    natDigitsAux fuel n = natDigitsAux (fuel - 1) (n / 10) ++ [digitChar (n % 10)] := by
  match fuel, hf with
  | f + 1, _ => simp [natDigitsAux, h]

lemma pad3_eq {n : Nat} (h : n ≤ 999) :
    pad3 n = [digitChar (n / 100), digitChar (n / 10 % 10), digitChar (n % 10)] := by
  rcases Nat.lt_or_ge n 10 with h1 | h1
  · have e1 : n / 100 = 0 := by omega
    have e2 : n / 10 % 10 = 0 := by omega
    have e3 : n % 10 = n := by omega
    rw [e1, e2, e3]
    unfold pad3 natDigits
    rw [natDigitsAux_lt10 (by omega) h1]
    rfl
  · rcases Nat.lt_or_ge n 100 with h2 | h2
    · have e1 : n / 100 = 0 := by omega
      rw [e1]
      unfold pad3 natDigits
      rw [natDigitsAux_ge10 (by omega) (by omega),
        natDigitsAux_lt10 (by omega) (by omega)]
      have e2 : n / 10 % 10 = n / 10 := by omega
      rw [e2]
      rfl
    · unfold pad3 natDigits
      rw [natDigitsAux_ge10 (by omega) (by omega),
        natDigitsAux_ge10 (by omega) (by omega),
        natDigitsAux_lt10 (by omega) (by omega)]
      have e1 : n / 10 / 10 = n / 100 := by omega
      rw [e1]
      rfl

lemma isDigit_digitChar {k : Nat} (h : k ≤ 9) : isDigitChar (digitChar k) = true := by
  interval_cases k <;> decide

lemma digitVal_digitChar {k : Nat} (h : k ≤ 9) : digitVal (digitChar k) = k := by
  interval_cases k <;> decide

lemma digitChar_ne_space {k : Nat} (h : k ≤ 9) : ¬ digitChar k = spaceChar := by
  interval_cases k <;> decide

lemma parseComp_pad3 {n : Nat} (h : n ≤ 999) (rest : List Char) :
    parseComp (pad3 n ++ rest) = some (n, rest) := by
  rw [pad3_eq h, List.cons_append, List.cons_append, List.cons_append,
    List.nil_append]
  have d1 : n / 100 ≤ 9 := by omega
  have d2 : n / 10 % 10 ≤ 9 := by omega
  have d3 : n % 10 ≤ 9 := by omega
  rw [parseComp]
  simp only [isDigit_digitChar d1, isDigit_digitChar d2, isDigit_digitChar d3,
    Bool.and_self, if_pos, digitVal_digitChar d1, digitVal_digitChar d2,
    digitVal_digitChar d3]
  have : 100 * (n / 100) + 10 * (n / 10 % 10) + n % 10 = n := by omega
  rw [this]

lemma skipWs_cons_ne {c : Char} (h : ¬ c = spaceChar) (rest : List Char) :
    skipWs (c :: rest) = c :: rest := by
  simp [skipWs, h]

lemma skipWs_pad3 {n : Nat} (h : n ≤ 999) (rest : List Char) :
    skipWs (pad3 n ++ rest) = pad3 n ++ rest := by
  rw [pad3_eq h, List.cons_append, List.cons_append, List.cons_append,
    List.nil_append]
  exact skipWs_cons_ne (digitChar_ne_space (by omega)) _

lemma parseAssetId_pad {a b : Nat} (ha : a ≤ 999) (hb : b ≤ 999) (rest : List Char) :
    parseAssetId (pad3 a ++ '-' :: (pad3 b ++ rest)) = some (⟨a, b⟩, rest) := by
  have h1 := parseComp_pad3 ha ('-' :: (pad3 b ++ rest))
  have h2 := parseComp_pad3 hb rest
  rw [parseAssetId]
  simp only [h1, h2]

/-- Claim C4: rendering a valid identifier to its canonical zero-padded
text and re-parsing yields a one-entry list holding the same identifier. -/
theorem C4_roundtrip : ∀ a b : Nat, a ≤ 999 → b ≤ 999 →
    parse (AssetId.render ⟨a, b⟩) = some [ListEntry.Id ⟨a, b⟩] := by
  intro a b ha hb
  have hshape : (AssetId.render ⟨a, b⟩).data = pad3 a ++ '-' :: (pad3 b ++ []) := by
    unfold AssetId.render
    simp
  rw [parse, hshape, parseInput, skipWs_pad3 ha]
  have hAId := parseAssetId_pad ha hb []
  have hrange : parseRange (pad3 a ++ '-' :: (pad3 b ++ [])) = none := by
    rw [parseRange, hAId]
    rfl
  rw [parseItem, hrange, hAId]
  rfl

theorem C4_roundtrip_witness :
    parse (AssetId.render ⟨12, 7⟩) = some [ListEntry.Id ⟨12, 7⟩] :=
  C4_roundtrip 12 7 (by decide) (by decide)

lemma digitVal_le {c : Char} (h : isDigitChar c = true) : digitVal c ≤ 9 := by
  unfold isDigitChar at h
  unfold digitVal
  simp only [Bool.and_eq_true, decide_eq_true_eq] at h
  omega

lemma parseComp_le {cs : List Char} {n : Nat} {rest : List Char}
    (h : parseComp cs = some (n, rest)) : n ≤ 999 := by
  match cs with
  | [] => simp [parseComp] at h
  | [c1] => simp [parseComp] at h
  | [c1, c2] => simp [parseComp] at h
  | c1 :: c2 :: c3 :: rest2 =>
    rw [parseComp] at h
    split at h
    · rename_i hd
      simp only [Bool.and_eq_true] at hd
      have h1 := digitVal_le hd.1.1
      have h2 := digitVal_le hd.1.2
      have h3 := digitVal_le hd.2
      simp only [Option.some.injEq, Prod.mk.injEq] at h
      omega
    · exact absurd h (by simp)

lemma parseAssetId_bounds {cs : List Char} {id : AssetId} {rest : List Char}
    (h : parseAssetId cs = some (id, rest)) : id.validB = true := by
  rw [parseAssetId] at h
  split at h
  · rename_i a r1 hc1
    split at h
    · rename_i rest2
      split at h
      · rename_i b rest3 hc2
        simp only [Option.some.injEq, Prod.mk.injEq] at h
        obtain ⟨rfl, rfl⟩ := h
        have ha := parseComp_le hc1
        have hb := parseComp_le hc2
        simp [AssetId.validB, ha, hb]
      · exact absurd h (by simp)
    · exact absurd h (by simp)
  · exact absurd h (by simp)

lemma parseRange_bounds {cs : List Char} {e : ListEntry} {rest : List Char}
    (h : parseRange cs = some (e, rest)) : e.validB = true := by
  rw [parseRange] at h
  split at h
  · rename_i fr r1 hc1
    split at h
    · rename_i r2
      split at h
      · rename_i to2 r3 hc2
        simp only [Option.some.injEq, Prod.mk.injEq] at h
        obtain ⟨rfl, rfl⟩ := h
        have h1 := parseAssetId_bounds hc1
        have h2 := parseAssetId_bounds hc2
        simp [ListEntry.validB, h1, h2]
      · exact absurd h (by simp)
    · exact absurd h (by simp)
  · exact absurd h (by simp)

lemma parseItem_bounds {cs : List Char} {e : ListEntry} {rest : List Char}
    (h : parseItem cs = some (e, rest)) : e.validB = true := by
  rw [parseItem] at h
  split at h
  · rename_i r hr
    simp only [Option.some.injEq] at h
    subst h
    exact parseRange_bounds hr
  · split at h
    · rename_i id r2 hi
      simp only [Option.some.injEq, Prod.mk.injEq] at h
      obtain ⟨rfl, rfl⟩ := h
      simpa [ListEntry.validB] using parseAssetId_bounds hi
    · exact absurd h (by simp)

lemma parseListRest_bounds : ∀ (fuel : Nat) (acc : List ListEntry) (cs : List Char),
    (∀ e ∈ acc, ListEntry.validB e = true) →
    ∀ e ∈ (parseListRest fuel acc cs).1, ListEntry.validB e = true := by
  intro fuel
  induction fuel with
  | zero => intro acc cs hacc; exact hacc
  | succ n ih =>
    intro acc cs hacc
    rw [parseListRest]
    split
    · rename_i r1
      split
      · rename_i e2 r2 hi
        apply ih
        intro e he
        rcases List.mem_append.mp he with he | he
        · exact hacc e he
        · rw [List.mem_singleton] at he
          subst he
          exact parseItem_bounds hi
      · exact hacc
    · exact hacc

/-- Claim C8: every identifier produced by a successful parse has both
components in [0, 999], whether in a Single entry or as either endpoint
of a Range entry. -/
theorem C8_parsed_bounds : ∀ (s : String) (l : List ListEntry),
    parse s = some l → ∀ e ∈ l, ListEntry.validB e = true := by
  intro s l h
  rw [parse, parseInput] at h
  split at h
  · rename_i e0 rest hi
    split at h
    · rename_i acc rest2 hrest
      split at h
      · simp only [Option.some.injEq] at h
        subst h
        intro e he
        refine parseListRest_bounds rest.length [e0] rest ?_ e (by rw [hrest]; exact he)
        intro e2 he2
        rw [List.mem_singleton] at he2
        subst he2
        exact parseItem_bounds hi
      · exact absurd h (by simp)
  · exact absurd h (by simp)

theorem C8_parsed_bounds_witness :
    ListEntry.validB (ListEntry.Id ⟨7, 3⟩) = true :=
  C8_parsed_bounds "007-003" [ListEntry.Id ⟨7, 3⟩] (by decide)
    (ListEntry.Id ⟨7, 3⟩) (List.mem_singleton_self _)

end AssetList
